import Mathlib

/-!
Verification of the SnapBudget receipt-extraction core (src/app.py).

The development shallowly embeds the parsing pipeline of `upload_image`
(app.py lines 200-279) together with `categorize` (lines 89-108):

* text is modelled as `List Char`;
* Python `str.lower` is modelled ASCII-wise (`pyToLower`), Python `str.strip`
  and the regex class `\s` are modelled with the ASCII whitespace set
  (`pyWs`); the receipt inputs the claims speak about are ASCII apart from
  the currency sign, and both regexes of the source use the same `\s`;
* prices are rationals (`Rat`); the source uses Python floats, but every
  price the claims mention has an exact two-decimal representation;
* the two regular expressions of the source are embedded as executable
  backtracking matchers that mirror Python's preference order (lazy `+?`
  grows from the shortest prefix, greedy `*` shrinks from the longest,
  `?` prefers to consume), so captured groups agree with `re`;
* the source file stores the rupee sign double-encoded: the character
  classes of both regexes literally contain the three characters
  U+00E2, U+201A, U+00B9, and the embedding keeps those exact characters.
-/

unseal Rat.add Rat.sub Rat.mul Rat.inv

namespace SnapBudget

/-- Conversion of a string literal to the character list the model works on. -/
def str (s : String) : List Char := s.data

/-- ASCII whitespace, the model of Python's `\s` class and of the characters
stripped by `str.strip`. -/
def pyWs (c : Char) : Bool :=
  c = ' ' || c = '\t' || c = '\n' || c = '\r' || c = '\x0b' || c = '\x0c'

/-- ASCII lowercase letters, by code point. -/
def isLowerAlpha (c : Char) : Bool := 97 ≤ c.toNat && c.toNat ≤ 122

/-- ASCII digits, the model of the regex class `\d`, by code point. -/
def isDigitChar (c : Char) : Bool := 48 ≤ c.toNat && c.toNat ≤ 57

/-- The ASCII uppercase-to-lowercase table. -/
def upperLowerTable : List (Char × Char) :=
  [('A', 'a'), ('B', 'b'), ('C', 'c'), ('D', 'd'), ('E', 'e'), ('F', 'f'),
   ('G', 'g'), ('H', 'h'), ('I', 'i'), ('J', 'j'), ('K', 'k'), ('L', 'l'),
   ('M', 'm'), ('N', 'n'), ('O', 'o'), ('P', 'p'), ('Q', 'q'), ('R', 'r'),
   ('S', 's'), ('T', 't'), ('U', 'u'), ('V', 'v'), ('W', 'w'), ('X', 'x'),
   ('Y', 'y'), ('Z', 'z')]

/-- ASCII model of Python `str.lower`, character by character: uppercase
letters map through the table, everything else is fixed. -/
def pyToLower (c : Char) : Char :=
  ((upperLowerTable.find? fun p => p.1 = c).map Prod.snd).getD c

/-- Model of Python `str.lower` on a whole line. -/
def pyLower (l : List Char) : List Char := l.map pyToLower

/-- Model of Python `str.strip`: drop ASCII whitespace from both ends. -/
def pyStrip (l : List Char) : List Char :=
  ((l.dropWhile pyWs).reverse.dropWhile pyWs).reverse

/-- Model of Python `text.split(chr(10))`: split at every newline, keeping
empty pieces, and returning one empty piece for the empty text. -/
def splitOnNewline : List Char → List (List Char)
  | [] => [[]]
  | c :: rest =>
    if c = '\n' then [] :: splitOnNewline rest
    else
      match splitOnNewline rest with
      | [] => [[c]]
      | h :: t => (c :: h) :: t

/-- Model of the Python substring test `pat in hay`. -/
def hasSubstr (hay pat : List Char) : Bool :=
  (List.range (hay.length + 1)).any fun i => pat.isPrefixOf (hay.drop i)

/-- The `exclude_words` list of app.py line 205, verbatim. -/
def excludeWords : List (List Char) :=
  [str "gst", str "total", str "invoice", str "bill", str "phone",
   str "contact", str "care", str "amount", str "tax", str "subtotal",
   str "discount", str "change", str "cash", str "card", str "visa",
   str "mastercard", str "qty", str "quantity", str "rate", str "price",
   str "item", str "description", str "unit"]

/-- The skip test of app.py line 209:
`any(word in line.lower() for word in exclude_words)`. -/
def containsExcludeWord (low : List Char) : Bool :=
  excludeWords.any fun w => hasSubstr low w

/-- Characters matched by the class `[\d,]` of both regexes. -/
def numCore (c : Char) : Bool := isDigitChar c || c = ','

/-- Exact match of the optional fractional part `(?:\.\d\x7b1,2\x7d)?`:
either empty, or a dot followed by one or two digits. -/
def isFracTail : List Char → Bool
  | [] => true
  | c :: ds =>
    c = '.' && decide (ds ≠ []) && decide (ds.length ≤ 2) && ds.all isDigitChar

/-- Exact match of the captured numeral `[\d,]+(?:\.\d\x7b1,2\x7d)?`
against the whole list. -/
def isNumTok (s : List Char) : Bool :=
  (List.range (s.length + 1)).any fun i =>
    decide (1 ≤ i) && (s.take i).all numCore && isFracTail (s.drop i)

/-- The optional-separator class `[\.:â‚¹\s]` of the item regex
(app.py line 216). The source stores the rupee sign double-encoded, so
the class literally holds the three characters U+00E2, U+201A, U+00B9. -/
def itemSepCls (c : Char) : Bool :=
  c = '.' || c = ':' || c = 'â' || c = '‚' || c = '¹' || pyWs c

/-- The optional-separator class `[:â‚¹]` of the total regex
(app.py line 232), with the same double-encoded rupee characters. -/
def totalSepCls (c : Char) : Bool :=
  c = ':' || c = 'â' || c = '‚' || c = '¹'

/-- Characters matched by the item regex class `[,\s]`. -/
def commaWs (c : Char) : Bool := c = ',' || pyWs c

/-- Alternatives explored for an optional one-character class `[cls]?`:
Python first tries to consume the character, then to skip it. The
returned list holds the remainders after the optional piece, in the
order the engine explores them. -/
def sepBranches (cls : Char → Bool) : List Char → List (List Char)
  | [] => [[]]
  | c :: r2 => if cls c then [r2, c :: r2] else [c :: r2]

/-- Backtracking match of `[ws]*(NUM)$` against `r2` where `NUM` is the
captured numeral grammar: the greedy star tries the longest whitespace
prefix first, and the remainder must be a nonempty numeral reaching the
end of the line. Returns the captured numeral. -/
def numSuffix (ws : Char → Bool) (r2 : List Char) : Option (List Char) :=
  (List.range (r2.length + 1)).reverse.findSome? fun j =>
    if (r2.take j).all ws then
      if decide (r2.drop j ≠ []) && isNumTok (r2.drop j) then some (r2.drop j)
      else none
    else none

/-- Backtracking match of `\s*[sep]?[ws2]*(NUM)$` against `rest`,
following Python's exploration order (greedy stars longest-first, the
optional class consume-first). Returns the captured numeral of the first
successful path, exactly as `re` would capture it. -/
def tailMatch (sep ws2 : Char → Bool) (rest : List Char) : Option (List Char) :=
  (List.range (rest.length + 1)).reverse.findSome? fun i =>
    if (rest.take i).all pyWs then
      (sepBranches sep (rest.drop i)).findSome? (numSuffix ws2)
    else none

/-- Tail of the item regex after the lazy group:
`\s*[\.:â‚¹\s]?[,\s]*([\d,]+(?:\.\d\x7b1,2\x7d)?)$`. -/
def itemTail (rest : List Char) : Option (List Char) :=
  tailMatch itemSepCls commaWs rest

/-- Model of `re.match` for the item regex of app.py line 216:
`(.+?)\s*[\.:â‚¹\s]?[,\s]*([\d,]+(?:\.\d\x7b1,2\x7d)?)$`.
The lazy group tries lengths from 1 upward (and, since `.` does not match
a newline, only newline-free prefixes); the first length whose tail
matches wins, and the two captured groups are returned. -/
def itemMatch (line : List Char) : Option (List Char × List Char) :=
  (List.range line.length).findSome? fun k =>
    if (line.take (k + 1)).all (fun c => c ≠ '\n') then
      match itemTail (line.drop (k + 1)) with
      | some num => some (line.take (k + 1), num)
      | none => none
    else none

/-- Tail of the total regex after the keyword:
`\s*[:â‚¹]?\s*([\d,]+(?:\.\d\x7b1,2\x7d)?)$`. -/
def totalTail (rest : List Char) : Option (List Char) :=
  tailMatch totalSepCls pyWs rest

/-- The keyword alternation `(?:total|sum|amt|balance)` of app.py line 232,
in source order. -/
def totalKeywords : List (List Char) :=
  [str "total", str "sum", str "amt", str "balance"]

/-- Model of `re.search` for the total regex of app.py line 232:
`(?:total|sum|amt|balance)\s*[:â‚¹]?\s*([\d,]+(?:\.\d\x7b1,2\x7d)?)$`,
applied by the source to the lowercased line. `re.search` takes the
leftmost start position that admits a match, trying the alternation in
source order there; the captured numeral is returned. -/
def totalSearch (low : List Char) : Option (List Char) :=
  (List.range (low.length + 1)).findSome? fun p =>
    totalKeywords.findSome? fun kw =>
      if kw.isPrefixOf (low.drop p) then totalTail ((low.drop p).drop kw.length)
      else none

/-- Digit list to natural number, most significant first. -/
def digitsToNat (ds : List Char) : Nat :=
  ds.foldl (fun n c => 10 * n + (c.toNat - 48)) 0

/-- Removal of thousands separators, app.py line 219:
`price_str.replace(s, e)` with `s` a comma and `e` empty. -/
def removeCommas (s : List Char) : List Char := s.filter fun c => c ≠ ','

/-- Model of Python `float()` restricted to the shapes a comma-stripped
captured numeral can take: digits with at most one dot and at least one
digit succeed, everything else (in particular the empty string) raises
`ValueError`, modelled as `none`. -/
def pyFloat (s : List Char) : Option ℚ :=
  let a := s.takeWhile fun c => c ≠ '.'
  match s.dropWhile fun c => c ≠ '.' with
  | [] =>
    if decide (a ≠ []) && a.all isDigitChar then some (digitsToNat a : ℚ)
    else none
  | _ :: b =>
    if a.all isDigitChar && b.all isDigitChar && (decide (a ≠ []) || decide (b ≠ [])) then
      some ((digitsToNat a : ℚ) + (digitsToNat b : ℚ) / (10 ^ b.length : ℚ))
    else none

/-- The closed category set of the `categorize` function (app.py 89-108). -/
inductive Category where
  | essentials | snacks | clothing | electronics | health
  | diningOut | transport | utilities | other
deriving DecidableEq, Repr

/-- Keyword list of the Essentials branch, app.py line 92. -/
def essentialsKws : List (List Char) :=
  [str "milk", str "rice", str "dal", str "bread", str "oil", str "eggs",
   str "vegetable", str "atta", str "flour", str "sugar", str "salt"]

/-- Keyword list of the Snacks branch, app.py line 94. -/
def snacksKws : List (List Char) :=
  [str "chocolate", str "biscuit", str "lays", str "snack", str "chips",
   str "cold drink", str "soda", str "candy", str "cookies"]

/-- Keyword list of the Clothing branch, app.py line 96. -/
def clothingKws : List (List Char) :=
  [str "shirt", str "jeans", str "shoe", str "sandal", str "dress",
   str "trousers", str "jacket", str "tshirt", str "socks"]

/-- Keyword list of the Electronics branch, app.py line 98. -/
def electronicsKws : List (List Char) :=
  [str "usb", str "charger", str "headphone", str "phone", str "mouse",
   str "keyboard", str "laptop", str "tablet", str "speaker"]

/-- Keyword list of the Health branch, app.py line 100. -/
def healthKws : List (List Char) :=
  [str "medicine", str "pharmacy", str "pill", str "bandage"]

/-- Keyword list of the Dining Out branch, app.py line 102. -/
def diningKws : List (List Char) :=
  [str "restaurant", str "cafe", str "food", str "dinner", str "lunch",
   str "breakfast", str "pizza", str "burger"]

/-- Keyword list of the Transport branch, app.py line 104. -/
def transportKws : List (List Char) :=
  [str "fuel", str "petrol", str "diesel", str "gas", str "transport"]

/-- Keyword list of the Utilities branch, app.py line 106. -/
def utilitiesKws : List (List Char) :=
  [str "electricity", str "water", str "internet", str "rent"]

/-- Membership of any keyword of the list in a lowercased name, the model
of `any(k in name for k in [...])`. -/
def anyKwIn (kws : List (List Char)) (low : List Char) : Bool :=
  kws.any fun k => hasSubstr low k

/-- The `categorize` function of app.py lines 89-108: lowercase the name,
then test the per-category keyword lists in source order, first match
winning, defaulting to Other. -/
def categorize (name : List Char) : Category :=
  let low := pyLower name
  if anyKwIn essentialsKws low then .essentials
  else if anyKwIn snacksKws low then .snacks
  else if anyKwIn clothingKws low then .clothing
  else if anyKwIn electronicsKws low then .electronics
  else if anyKwIn healthKws low then .health
  else if anyKwIn diningKws low then .diningOut
  else if anyKwIn transportKws low then .transport
  else if anyKwIn utilitiesKws low then .utilities
  else .other

/-- One parsed item: `items.append(dict with name and price)`, app.py 223. -/
structure Item where
  name : List Char
  price : ℚ
deriving DecidableEq, Repr

/-- Insertion-ordered dictionary read with default, the model of
`category_totals.get(cat, 0.0)`. -/
def dictGet (d : List (Category × ℚ)) (k : Category) (dflt : ℚ) : ℚ :=
  match d.find? (fun p => decide (p.1 = k)) with
  | some p => p.2
  | none => dflt

/-- Insertion-ordered dictionary update, the model of
`category_totals[cat] = category_totals.get(cat, 0.0) + price`: an
existing key is updated in place, a new key is appended. -/
def dictAdd (d : List (Category × ℚ)) (k : Category) (v : ℚ) : List (Category × ℚ) :=
  if d.any (fun p => decide (p.1 = k)) then
    d.map fun p => if p.1 = k then (p.1, p.2 + v) else p
  else d ++ [(k, v)]

/-- The savings tips of app.py lines 256-269, as a closed set of tags; the
high-spend tip carries the total it formats into its message. -/
inductive Tip where
  | balanced
  | noData
  | electronicsSpend
  | snacksBulk
  | missingEssentials
  | goodBudget
  | highSpend (total : ℚ)
deriving DecidableEq, Repr

/-- The tip selection of app.py lines 250-269: `essentials` and `snacks`
are recomputed from the item list by `categorize`, the electronics total
is read from the category dictionary, and the if/elif chain assigns the
first applicable tip, the initial assignment acting as the default. -/
def computeTip (items : List Item) (categoryTotals : List (Category × ℚ))
    (total : ℚ) : Tip :=
  let essentials := items.filter fun i => categorize i.name = Category.essentials
  let snacks := items.filter fun i => categorize i.name = Category.snacks
  let electronicsTotal := dictGet categoryTotals Category.electronics 0
  if total = 0 then .noData
  else if electronicsTotal > 1500 then .electronicsSpend
  else if snacks.length ≥ 3 then .snacksBulk
  else if essentials = [] ∧ total > 0 then .missingEssentials
  else if 0 < total ∧ total < 500 then .goodBudget
  else if total > 2500 then .highSpend total
  else .balanced

/-- The loop state of app.py lines 201-203: accumulated items, running
total, and the category dictionary. -/
structure ExtractState where
  items : List Item
  total : ℚ
  categoryTotals : List (Category × ℚ)
deriving DecidableEq, Repr

/-- The initial loop state: `items = []`, `total = 0.0`,
`category_totals` empty. -/
def state0 : ExtractState := ⟨[], 0, []⟩

/-- One iteration of the `for line in lines` loop, app.py lines 207-247:
strip the line; skip it when empty or containing an exclude word; try the
item regex, recording an in-range priced item and categorizing it, a
failed float conversion continuing and an out-of-range price doing
nothing; only when the item regex does not match, try the total regex and
apply the override rule of lines 238-244. -/
def processLine (st : ExtractState) (rawLine : List Char) : ExtractState :=
  let line := pyStrip rawLine
  if line = [] || containsExcludeWord (pyLower line) then st
  else
    match itemMatch line with
    | some (g1, g2) =>
      let name := pyStrip g1
      match pyFloat (removeCommas g2) with
      | none => st
      | some price =>
        if 1 / 100 ≤ price ∧ price ≤ 100000 then
          { items := st.items ++ [⟨name, price⟩]
            total := st.total + price
            categoryTotals := dictAdd st.categoryTotals (categorize name) price }
        else st
    | none =>
      match totalSearch (pyLower line) with
      | none => st
      | some g1 =>
        match pyFloat (removeCommas g1) with
        | none => st
        | some extractedTotal =>
          if extractedTotal > 0 ∧ |extractedTotal - st.total| < 100 then
            { st with total := extractedTotal }
          else if st.total = 0 ∧ extractedTotal > 0 then
            { st with total := extractedTotal }
          else st

/-- The final structured result of app.py lines 271-279, restricted to the
fields computed by the extraction core (timestamp, username and image URL
are external effects). -/
structure ReceiptResult where
  items : List Item
  total : ℚ
  categoryBreakdown : List (Category × ℚ)
  savingsTip : Tip
deriving DecidableEq, Repr

/-- The extraction pipeline of app.py lines 200-279 on raw OCR text:
`lines = extracted_text.strip().split(chr(10))`, the parsing loop, and
the tip selection on the final aggregates. -/
def extract (raw : List Char) : ReceiptResult :=
  let lines := splitOnNewline (pyStrip raw)
  let st := lines.foldl processLine state0
  { items := st.items
    total := st.total
    categoryBreakdown := st.categoryTotals
    savingsTip := computeTip st.items st.categoryTotals st.total }

/-- Sum of the prices of a produced item list. -/
def sumPrices (items : List Item) : ℚ := (items.map Item.price).sum

/-- First category of a priority-ordered table whose keyword list matches
the lowercased name, defaulting to Other. -/
def firstCategory : List (List (List Char) × Category) → List Char → Category
  | [], _ => Category.other
  | r :: rs, low => if anyKwIn r.1 low then r.2 else firstCategory rs low

/-- Modelled from the spec: the categorizer as a priority-ordered table of
category/keyword-set pairs, iterated in the fixed order Essentials,
Snacks, Clothing, Electronics, Health, Dining Out, Transport, Utilities,
first matching category winning, with Other when nothing matches. -/
def categoryTable : List (List (List Char) × Category) :=
  [(essentialsKws, Category.essentials), (snacksKws, Category.snacks),
   (clothingKws, Category.clothing), (electronicsKws, Category.electronics),
   (healthKws, Category.health), (diningKws, Category.diningOut),
   (transportKws, Category.transport), (utilitiesKws, Category.utilities)]

/-- Modelled from the spec: case-insensitive substring match against the
per-category keyword lists, in fixed priority order, first match winning,
defaulting to Other. -/
def specCategorize (name : List Char) : Category :=
  firstCategory categoryTable (pyLower name)

/-- First tip among a priority-ordered rule list whose condition holds,
defaulting to the fallback tip. -/
def firstTip : List (Bool × Tip) → Tip → Tip
  | [], dflt => dflt
  | r :: rs, dflt => if r.1 then r.2 else firstTip rs dflt

/-- Modelled from the spec (§4.4 step 4): the savings tip evaluated as a
strict priority-ordered rule list against the final item list, category
breakdown and total, the first matching rule winning and the balanced
tip acting as the final default. -/
def specTip (items : List Item) (breakdown : List (Category × ℚ)) (total : ℚ) : Tip :=
  firstTip
    [(decide (total = 0), Tip.noData),
     (decide (dictGet breakdown Category.electronics 0 > 1500), Tip.electronicsSpend),
     (decide ((items.filter fun i => categorize i.name = Category.snacks).length ≥ 3),
       Tip.snacksBulk),
     (decide ((items.filter fun i => categorize i.name = Category.essentials) = [] ∧ total > 0),
       Tip.missingEssentials),
     (decide (0 < total ∧ total < 500), Tip.goodBudget),
     (decide (total > 2500), Tip.highSpend total)]
    Tip.balanced

example : str "ab" = ['a', 'b'] := by decide
example : pyLower (str "SuM 5") = str "sum 5" := by decide
example : pyStrip (str "  a b  ") = str "a b" := by decide
example : splitOnNewline (str "a\n\nb") = [str "a", [], str "b"] := by decide
example : hasSubstr (str "subtotal: 5") (str "total") = true := by decide
example : isNumTok (str "1,234.50") = true := by decide
example : isNumTok (str ",") = true := by decide
example : isNumTok (str "1.234") = false := by decide
example : itemMatch (str "Milk 2% 45.00") = some (str "Milk 2%", str "45.00") := by decide
example : itemMatch (str "Lays Chips 30") = some (str "Lays Chips", str "30") := by decide
example : itemMatch (str "abc ,") = some (str "abc", str ",") := by decide
example : itemMatch (str "Thank you") = none := by decide
example : itemMatch (str "5") = none := by decide
example : totalSearch (str "total: 1200") = some (str "1200") := by decide
example : totalSearch (str "sum 200000") = some (str "200000") := by decide
example : totalSearch (str "thank you") = none := by decide
example : pyFloat (str "45.00") = some 45 := by decide
example : pyFloat (str ".5") = some (1 / 2) := by decide
example : pyFloat (str "") = none := by decide
example : categorize (str "Milk 2%") = Category.essentials := by decide
example : categorize (str "Lays Chips") = Category.snacks := by decide
example : categorize (str "Widget") = Category.other := by decide
example :
    extract (str "Milk 500\nBread 680\nTotal: 1200") =
      { items := [⟨str "Milk", 500⟩, ⟨str "Bread", 680⟩]
        total := 1180
        categoryBreakdown := [(Category.essentials, 1180)]
        savingsTip := Tip.balanced } := by decide
example :
    extract (str "GST No: 12345\nThank you") =
      { items := [], total := 0, categoryBreakdown := [], savingsTip := Tip.noData } := by
  decide

/-- Lowercasing either fixes a character or yields an ASCII lowercase
letter. -/
theorem pyToLower_or (c : Char) :
    pyToLower c = c ∨ isLowerAlpha (pyToLower c) = true := by
  unfold pyToLower
  cases hf : upperLowerTable.find? fun p => p.1 = c with
  | none => exact Or.inl rfl
  | some q =>
    refine Or.inr ?_
    have hmem := List.mem_of_find?_eq_some hf
    have hall : ∀ r ∈ upperLowerTable, isLowerAlpha r.2 = true := by decide
    simpa using hall q hmem

/-- A character whose lowercase image is not a lowercase letter is fixed
by lowercasing. -/
theorem pyToLower_fixed {c : Char} (h : isLowerAlpha (pyToLower c) = false) :
    pyToLower c = c := by
  rcases pyToLower_or c with h1 | h1
  · exact h1
  · rw [h1] at h
    cases h

/-- Whitespace characters are not lowercase letters. -/
theorem pyWs_not_lower {d : Char} (h : pyWs d = true) : isLowerAlpha d = false := by
  unfold pyWs at h
  simp only [Bool.or_eq_true, decide_eq_true_eq] at h
  rcases h with ((((h | h) | h) | h) | h) | h <;> subst h <;> decide

/-- Total-regex separator characters (colon plus the mangled currency
characters) are not lowercase letters. -/
theorem totalSep_not_lower {d : Char} (h : totalSepCls d = true) :
    isLowerAlpha d = false := by
  unfold totalSepCls at h
  simp only [Bool.or_eq_true, decide_eq_true_eq] at h
  rcases h with ((h | h) | h) | h <;> subst h <;> decide

/-- The total-regex separator class is contained in the item-regex
separator class. -/
theorem totalSep_sub_itemSep {d : Char} (h : totalSepCls d = true) :
    itemSepCls d = true := by
  unfold totalSepCls at h
  simp only [Bool.or_eq_true, decide_eq_true_eq] at h
  rcases h with ((h | h) | h) | h <;> subst h <;> decide

/-- Digits are not lowercase letters. -/
theorem digit_not_lower {d : Char} (h : isDigitChar d = true) :
    isLowerAlpha d = false := by
  unfold isDigitChar at h
  simp only [Bool.and_eq_true, decide_eq_true_eq] at h
  have : ¬(97 ≤ d.toNat) := by omega
  simp [isLowerAlpha, this]

/-- Numeral-core characters (digits and commas) are not lowercase
letters. -/
theorem numCore_not_lower {d : Char} (h : numCore d = true) :
    isLowerAlpha d = false := by
  unfold numCore at h
  rcases Bool.or_eq_true_iff.mp h with h1 | h1
  · exact digit_not_lower h1
  · rw [decide_eq_true_eq] at h1
    subst h1
    decide

/-- Whitespace survives un-lowercasing: if the lowercase image of a
character is whitespace, so is the character. -/
theorem pyWs_down (c : Char) (h : pyWs (pyToLower c) = true) : pyWs c = true := by
  rw [← pyToLower_fixed (pyWs_not_lower h)]
  exact h

/-- Everything whitespace also lies in the item regex class commaWs. -/
theorem commaWs_of_pyWs {c : Char} (h : pyWs c = true) : commaWs c = true := by
  unfold commaWs
  simp [h]

/-- A Boolean predicate transfers along a list when it holds of every
lowercase image and descends through lowercasing per character. -/
theorem all_map_down {l : List Char} {p : Char → Bool}
    (hp : ∀ c, p (pyToLower c) = true → p c = true)
    (h : (l.map pyToLower).all p = true) : l.all p = true := by
  rw [List.all_map, List.all_eq_true] at h
  rw [List.all_eq_true]
  exact fun c hc => hp c (h c hc)

/-- Monotonicity of `List.all` in the predicate. -/
theorem all_mono {l : List Char} {p q : Char → Bool}
    (hpq : ∀ c, p c = true → q c = true) (h : l.all p = true) :
    l.all q = true := by
  rw [List.all_eq_true] at h
  rw [List.all_eq_true]
  exact fun c hc => hpq c (h c hc)

/-- A list whose lowercase image has no lowercase letters is fixed by
lowercasing. -/
theorem map_pyToLower_eq_self {l : List Char}
    (h : ∀ c ∈ l.map pyToLower, isLowerAlpha c = false) :
    l.map pyToLower = l := by
  induction l with
  | nil => rfl
  | cons a t ih =>
    simp only [List.map_cons] at h ⊢
    have ha := pyToLower_fixed (h _ (List.mem_cons_self _ _))
    rw [ha, ih fun c hc => h c (List.mem_cons_of_mem _ hc)]

/-- Every character of a string matched by the numeral grammar is a
digit, a comma or a dot, hence not a lowercase letter. -/
theorem isNumTok_not_lower {s : List Char} (h : isNumTok s = true) :
    ∀ c ∈ s, isLowerAlpha c = false := by
  unfold isNumTok at h
  rw [List.any_eq_true] at h
  obtain ⟨i, _, hbody⟩ := h
  simp only [Bool.and_eq_true, decide_eq_true_eq] at hbody
  obtain ⟨⟨_, hcore⟩, hfrac⟩ := hbody
  intro c hc
  rw [← List.take_append_drop i s, List.mem_append] at hc
  rcases hc with hc | hc
  · exact numCore_not_lower (List.all_eq_true.mp hcore c hc)
  · cases hd : s.drop i with
    | nil =>
      rw [hd] at hc
      cases hc
    | cons d ds =>
      rw [hd] at hc hfrac
      unfold isFracTail at hfrac
      simp only [Bool.and_eq_true, decide_eq_true_eq] at hfrac
      obtain ⟨⟨⟨hdot, _⟩, _⟩, hds⟩ := hfrac
      rcases List.mem_cons.mp hc with hc | hc
      · subst hc
        subst hdot
        decide
      · exact digit_not_lower (List.all_eq_true.mp hds c hc)

/-- Unpacking a successful whitespace-then-numeral suffix match. -/
theorem numSuffix_eq_some {ws : Char → Bool} {r2 n : List Char}
    (h : numSuffix ws r2 = some n) :
    ∃ j, j ≤ r2.length ∧ (r2.take j).all ws = true ∧ r2.drop j = n ∧
      n ≠ [] ∧ isNumTok n = true := by
  unfold numSuffix at h
  obtain ⟨j, hj, hbody⟩ := List.exists_of_findSome?_eq_some h
  rw [List.mem_reverse, List.mem_range] at hj
  split at hbody
  next hws =>
    split at hbody
    next hnum =>
      simp only [Bool.and_eq_true, decide_eq_true_eq] at hnum
      injection hbody with hb
      exact ⟨j, by omega, hws, hb, hb ▸ hnum.1, hb ▸ hnum.2⟩
    next => cases hbody
  next => cases hbody

/-- Building a successful whitespace-then-numeral suffix match. -/
theorem numSuffix_ne_none {ws : Char → Bool} {r2 : List Char} (j : ℕ)
    (hj : j ≤ r2.length) (hws : (r2.take j).all ws = true)
    (hne : r2.drop j ≠ []) (hnum : isNumTok (r2.drop j) = true) :
    numSuffix ws r2 ≠ none := by
  unfold numSuffix
  rw [Ne, List.findSome?_eq_none_iff]
  intro hall
  have hb := hall j (by rw [List.mem_reverse, List.mem_range]; omega)
  rw [if_pos hws, if_pos (by simp [hne, hnum])] at hb
  cases hb

/-- The skip alternative is always among the optional-separator
branches. -/
theorem self_mem_sepBranches (cls : Char → Bool) (r1 : List Char) :
    r1 ∈ sepBranches cls r1 := by
  cases r1 with
  | nil => simp [sepBranches]
  | cons c t =>
    simp only [sepBranches]
    split <;> simp

/-- When the head lies in the class, the consume alternative is among the
optional-separator branches. -/
theorem tail_mem_sepBranches {cls : Char → Bool} {c : Char} {t : List Char}
    (h : cls c = true) : t ∈ sepBranches cls (c :: t) := by
  simp [sepBranches, h]

/-- Every optional-separator branch is the skip alternative or the
consume alternative on a head of the class. -/
theorem mem_sepBranches_elim {cls : Char → Bool} {r1 r2 : List Char}
    (h : r2 ∈ sepBranches cls r1) :
    r2 = r1 ∨ ∃ c t, r1 = c :: t ∧ cls c = true ∧ r2 = t := by
  cases r1 with
  | nil =>
    simp only [sepBranches, List.mem_singleton] at h
    exact Or.inl h
  | cons c t =>
    simp only [sepBranches] at h
    by_cases hc : cls c = true
    · rw [if_pos hc] at h
      rcases List.mem_cons.mp h with h1 | h1
      · exact Or.inr ⟨c, t, rfl, hc, h1⟩
      · exact Or.inl (List.mem_singleton.mp h1)
    · rw [if_neg hc] at h
      exact Or.inl (List.mem_singleton.mp h)

/-- Unpacking a successful tail match. -/
theorem tailMatch_eq_some {sep ws2 : Char → Bool} {rest n : List Char}
    (h : tailMatch sep ws2 rest = some n) :
    ∃ i, i ≤ rest.length ∧ (rest.take i).all pyWs = true ∧
      ∃ r2, r2 ∈ sepBranches sep (rest.drop i) ∧ numSuffix ws2 r2 = some n := by
  unfold tailMatch at h
  obtain ⟨i, hi, hbody⟩ := List.exists_of_findSome?_eq_some h
  rw [List.mem_reverse, List.mem_range] at hi
  split at hbody
  next hws => exact ⟨i, by omega, hws, List.exists_of_findSome?_eq_some hbody⟩
  next => cases hbody

/-- Building a successful tail match from one witnessing path. -/
theorem tailMatch_ne_none {sep ws2 : Char → Bool} {rest : List Char} (i : ℕ)
    (hi : i ≤ rest.length) (hws : (rest.take i).all pyWs = true)
    {r2 : List Char} (hr2 : r2 ∈ sepBranches sep (rest.drop i))
    (hn : numSuffix ws2 r2 ≠ none) : tailMatch sep ws2 rest ≠ none := by
  unfold tailMatch
  rw [Ne, List.findSome?_eq_none_iff]
  intro hall
  have hb := hall i (by rw [List.mem_reverse, List.mem_range]; omega)
  rw [if_pos hws, List.findSome?_eq_none_iff] at hb
  exact hn (hb r2 hr2)

/-- Transport of a whitespace-then-numeral suffix match from the
lowercased line back to the original line, weakening the whitespace
class to the item regex class. -/
theorem numSuffix_transport {t n : List Char}
    (h : numSuffix pyWs (t.map pyToLower) = some n) :
    numSuffix commaWs t ≠ none := by
  obtain ⟨j, hj, hws, hdrop, hne, hnum⟩ := numSuffix_eq_some h
  rw [List.length_map] at hj
  have hmapdrop : (t.drop j).map pyToLower = n := by
    rw [List.map_drop, hdrop]
  have hdropeq : t.drop j = n := by
    have hself := map_pyToLower_eq_self (l := t.drop j)
      (by rw [hmapdrop]; exact isNumTok_not_lower hnum)
    rw [← hself, hmapdrop]
  apply numSuffix_ne_none j hj
  · rw [← List.map_take] at hws
    exact all_mono (fun c => commaWs_of_pyWs) (all_map_down pyWs_down hws)
  · rw [hdropeq]
    exact hne
  · rw [hdropeq]
    exact hnum

/-- Transport of a successful total-regex tail match on the lowercased
line to a successful item-regex tail match on the original line. -/
theorem totalTail_itemTail {rest n : List Char}
    (h : totalTail (rest.map pyToLower) = some n) : itemTail rest ≠ none := by
  unfold totalTail at h
  unfold itemTail
  obtain ⟨i, hi, hws, r2l, hr2mem, hnum⟩ := tailMatch_eq_some h
  rw [List.length_map] at hi
  have hws2 : (rest.take i).all pyWs = true := by
    rw [← List.map_take] at hws
    exact all_map_down pyWs_down hws
  rcases mem_sepBranches_elim hr2mem with hself | ⟨c', t', hcons, hcls, hr2⟩
  · have hnum2 : numSuffix pyWs ((rest.drop i).map pyToLower) = some n := by
      rw [List.map_drop]
      rw [← hself]
      exact hnum
    exact tailMatch_ne_none i hi hws2 (self_mem_sepBranches _ _)
      (numSuffix_transport hnum2)
  · have hd : (rest.drop i).map pyToLower = c' :: t' := by
      rw [List.map_drop]
      exact hcons
    cases he : rest.drop i with
    | nil =>
      rw [he] at hd
      cases hd
    | cons c t =>
      rw [he] at hd
      simp only [List.map_cons, List.cons.injEq] at hd
      obtain ⟨hd1, hd2⟩ := hd
      have hfix : pyToLower c = c := pyToLower_fixed (by
        rw [hd1]
        exact totalSep_not_lower hcls)
      have hsep : itemSepCls c = true := by
        apply totalSep_sub_itemSep
        rw [← hfix, hd1]
        exact hcls
      have hnum2 : numSuffix pyWs (t.map pyToLower) = some n := by
        rw [hd2, ← hr2]
        exact hnum
      have hmem : t ∈ sepBranches itemSepCls (rest.drop i) := by
        rw [he]
        exact tail_mem_sepBranches hsep
      exact tailMatch_ne_none i hi hws2 hmem (numSuffix_transport hnum2)

/-- Whenever the total regex matches the lowercased line (`re.search` of
app.py line 232 succeeds), the item regex already matches the original
newline-free line (`re.match` of line 216 succeeds): the lazy name group
swallows everything up to and including the total keyword, and the
remaining separator-and-numeral tail of the total pattern is accepted by
the larger separator classes of the item pattern. Hence the total-line
fallback branch of app.py lines 230-247 is unreachable. -/
theorem totalSearch_itemMatch {line n : List Char}
    (hnl : line.all (fun c => c ≠ '\n') = true)
    (h : totalSearch (pyLower line) = some n) : itemMatch line ≠ none := by
  unfold totalSearch at h
  obtain ⟨p, _, hbody⟩ := List.exists_of_findSome?_eq_some h
  obtain ⟨kw, hkw, hkwbody⟩ := List.exists_of_findSome?_eq_some hbody
  split at hkwbody
  next =>
    have hdd : ((pyLower line).drop p).drop kw.length =
        (line.drop (p + kw.length)).map pyToLower := by
      rw [List.drop_drop]
      unfold pyLower
      rw [List.map_drop]
    rw [hdd] at hkwbody
    have hne := totalTail_itemTail hkwbody
    have hklen : 1 ≤ kw.length := by
      simp only [totalKeywords, List.mem_cons, List.not_mem_nil, or_false] at hkw
      rcases hkw with rfl | rfl | rfl | rfl <;> decide
    have hlt : p + kw.length < line.length := by
      by_contra hge
      push_neg at hge
      have hdn : line.drop (p + kw.length) = [] :=
        List.drop_eq_nil_of_le hge
      rw [hdn] at hkwbody
      have hnil : totalTail (List.map pyToLower []) = none := by decide
      rw [hnil] at hkwbody
      cases hkwbody
    unfold itemMatch
    rw [Ne, List.findSome?_eq_none_iff]
    intro hall
    have hb := hall (p + kw.length - 1) (by rw [List.mem_range]; omega)
    have hk1 : p + kw.length - 1 + 1 = p + kw.length := by omega
    rw [hk1] at hb
    have hg : (line.take (p + kw.length)).all (fun c => decide (c ≠ '\n')) = true := by
      rw [List.all_eq_true] at hnl ⊢
      exact fun c hc => hnl c (List.take_subset _ _ hc)
    rw [if_pos hg] at hb
    cases hit : itemTail (line.drop (p + kw.length)) with
    | none => exact hne hit
    | some num =>
      rw [hit] at hb
      cases hb
  next => cases hkwbody

/-- Stripping only removes characters. -/
theorem mem_of_mem_pyStrip {c : Char} {l : List Char} (h : c ∈ pyStrip l) :
    c ∈ l := by
  unfold pyStrip at h
  rw [List.mem_reverse] at h
  have h1 := (List.dropWhile_sublist pyWs).subset h
  rw [List.mem_reverse] at h1
  exact (List.dropWhile_sublist pyWs).subset h1

/-- Splitting on newlines yields newline-free pieces. -/
theorem splitOnNewline_no_newline (l : List Char) :
    ∀ p ∈ splitOnNewline l, p.all (fun c => c ≠ '\n') = true := by
  induction l with
  | nil =>
    intro p hp
    simp only [splitOnNewline, List.mem_singleton] at hp
    subst hp
    rfl
  | cons c rest ih =>
    intro p hp
    simp only [splitOnNewline] at hp
    by_cases hc : c = '\n'
    · rw [if_pos hc] at hp
      rcases List.mem_cons.mp hp with rfl | hp2
      · rfl
      · exact ih p hp2
    · rw [if_neg hc] at hp
      cases hsr : splitOnNewline rest with
      | nil =>
        rw [hsr] at hp
        rcases List.mem_cons.mp hp with rfl | hp2
        · simp [List.all_cons, hc]
        · cases hp2
      | cons hgroup t =>
        rw [hsr] at hp
        rcases List.mem_cons.mp hp with rfl | hp2
        · have hh := ih hgroup (by rw [hsr]; exact List.mem_cons_self _ _)
          rw [List.all_eq_true] at hh
          simp only [List.all_cons, Bool.and_eq_true, decide_eq_true_eq, List.all_eq_true]
          exact ⟨hc, fun x hx => by simpa using hh x hx⟩
        · exact ih p (by rw [hsr]; exact List.mem_cons_of_mem _ hp2)

/-- Per-line case analysis of the parsing loop on a newline-free line:
either the state is unchanged, or exactly one in-range item is appended,
its price added to the running total and to its category bucket. The
total-override branch never fires, by `totalSearch_itemMatch`. -/
theorem processLine_shape (st : ExtractState) (l : List Char)
    (hnl : l.all (fun c => c ≠ '\n') = true) :
    processLine st l = st ∨
      ∃ nm pr, (1 / 100 ≤ pr ∧ pr ≤ 100000) ∧
        processLine st l =
          { items := st.items ++ [⟨nm, pr⟩]
            total := st.total + pr
            categoryTotals := dictAdd st.categoryTotals (categorize nm) pr } := by
  have hnl2 : (pyStrip l).all (fun c => decide (c ≠ '\n')) = true := by
    rw [List.all_eq_true] at hnl ⊢
    exact fun c hc => hnl c (mem_of_mem_pyStrip hc)
  by_cases hex : (decide (pyStrip l = []) || containsExcludeWord (pyLower (pyStrip l))) = true
  · left
    simp only [processLine]
    rw [if_pos hex]
  · cases him : itemMatch (pyStrip l) with
    | none =>
      left
      cases hts : totalSearch (pyLower (pyStrip l)) with
      | some g1 => exact absurd him (totalSearch_itemMatch hnl2 hts)
      | none =>
        simp only [processLine]
        rw [if_neg hex, him]
        dsimp only
        rw [hts]
    | some g =>
      obtain ⟨g1, g2⟩ := g
      cases hf : pyFloat (removeCommas g2) with
      | none =>
        left
        simp only [processLine]
        rw [if_neg hex, him]
        dsimp only
        rw [hf]
      | some price =>
        by_cases hr : 1 / 100 ≤ price ∧ price ≤ 100000
        · right
          refine ⟨pyStrip g1, price, hr, ?_⟩
          simp only [processLine]
          rw [if_neg hex, him]
          dsimp only
          rw [hf]
          dsimp only
          rw [if_pos hr]
        · left
          simp only [processLine]
          rw [if_neg hex, him]
          dsimp only
          rw [hf]
          dsimp only
          rw [if_neg hr]

/-- Loop invariant of the parsing loop over newline-free lines: the
running total stays the sum of the recorded item prices, and every
recorded price stays inside the accepted range. -/
theorem foldl_invariant (lines : List (List Char)) (st : ExtractState)
    (hlines : ∀ l ∈ lines, l.all (fun c => c ≠ '\n') = true)
    (htot : st.total = sumPrices st.items)
    (hrange : ∀ it ∈ st.items, 1 / 100 ≤ it.price ∧ it.price ≤ 100000) :
    (lines.foldl processLine st).total = sumPrices (lines.foldl processLine st).items ∧
      ∀ it ∈ (lines.foldl processLine st).items,
        1 / 100 ≤ it.price ∧ it.price ≤ 100000 := by
  induction lines generalizing st with
  | nil => exact ⟨htot, hrange⟩
  | cons l ls ih =>
    simp only [List.foldl_cons]
    rcases processLine_shape st l (hlines l (List.mem_cons_self _ _)) with heq |
      ⟨nm, pr, hr, heq⟩
    · rw [heq]
      exact ih st (fun x hx => hlines x (List.mem_cons_of_mem _ hx)) htot hrange
    · rw [heq]
      apply ih _ (fun x hx => hlines x (List.mem_cons_of_mem _ hx))
      · simp only [sumPrices, List.map_append, List.sum_append, List.map_cons,
          List.map_nil, List.sum_cons, List.sum_nil]
        rw [htot]
        simp [sumPrices]
      · intro it hit
        rcases List.mem_append.mp hit with hold | hnew
        · exact hrange it hold
        · rw [List.mem_singleton.mp hnew]
          exact hr

/-- The if/elif tip chain of app.py lines 256-269 computes the first
matching rule of the priority-ordered rule list. -/
theorem computeTip_eq_specTip (items : List Item) (bd : List (Category × ℚ))
    (total : ℚ) : computeTip items bd total = specTip items bd total := by
  unfold computeTip specTip
  simp only [firstTip, decide_eq_true_eq]

/-- A successful item-regex match captures a nonempty price token matched
by the numeral grammar. -/
theorem itemMatch_num {line g1 g2 : List Char}
    (h : itemMatch line = some (g1, g2)) : isNumTok g2 = true ∧ g2 ≠ [] := by
  unfold itemMatch at h
  obtain ⟨k, _, hbody⟩ := List.exists_of_findSome?_eq_some h
  split at hbody
  next =>
    cases hit : itemTail (line.drop (k + 1)) with
    | none =>
      rw [hit] at hbody
      cases hbody
    | some num =>
      rw [hit] at hbody
      obtain ⟨i, _, _, r2, _, hns⟩ := tailMatch_eq_some hit
      obtain ⟨j, _, _, _, hne, hnum⟩ := numSuffix_eq_some hns
      injection hbody with hb
      rw [Prod.mk.injEq] at hb
      rw [← hb.2]
      exact ⟨hnum, hne⟩
  next => cases hbody

/-- Taking while a predicate holds skips over a prefix where it holds
everywhere. -/
theorem takeWhile_all_append {p : Char → Bool} {A B : List Char}
    (hA : ∀ a ∈ A, p a = true) : (A ++ B).takeWhile p = A ++ B.takeWhile p := by
  induction A with
  | nil => rfl
  | cons a t ih =>
    simp [List.cons_append, List.takeWhile_cons, hA a (List.mem_cons_self _ _),
      ih fun x hx => hA x (List.mem_cons_of_mem _ hx)]

/-- Dropping while a predicate holds consumes a prefix where it holds
everywhere. -/
theorem dropWhile_all_append {p : Char → Bool} {A B : List Char}
    (hA : ∀ a ∈ A, p a = true) : (A ++ B).dropWhile p = B.dropWhile p := by
  induction A with
  | nil => rfl
  | cons a t ih =>
    simp [List.cons_append, List.dropWhile_cons, hA a (List.mem_cons_self _ _),
      ih fun x hx => hA x (List.mem_cons_of_mem _ hx)]

/-- Structure of a string matched by the numeral grammar: a nonempty core
of digits and commas, then either nothing or a dot with one or two
digits. -/
theorem isNumTok_decomp {s : List Char} (h : isNumTok s = true) :
    ∃ core frac, s = core ++ frac ∧ core ≠ [] ∧
      (∀ c ∈ core, numCore c = true) ∧
      (frac = [] ∨ ∃ ds, frac = '.' :: ds ∧ ds ≠ [] ∧
        ∀ c ∈ ds, isDigitChar c = true) := by
  unfold isNumTok at h
  rw [List.any_eq_true] at h
  obtain ⟨i, hir, hbody⟩ := h
  rw [List.mem_range] at hir
  simp only [Bool.and_eq_true, decide_eq_true_eq] at hbody
  obtain ⟨⟨h1, hcore⟩, hfrac⟩ := hbody
  refine ⟨s.take i, s.drop i, (List.take_append_drop i s).symm, ?_, ?_, ?_⟩
  · intro htk
    have hlen := congrArg List.length htk
    rw [List.length_take, List.length_nil] at hlen
    omega
  · exact fun c hc => List.all_eq_true.mp hcore c hc
  · cases hd : s.drop i with
    | nil => exact Or.inl rfl
    | cons d ds =>
      rw [hd] at hfrac
      unfold isFracTail at hfrac
      simp only [Bool.and_eq_true, decide_eq_true_eq] at hfrac
      obtain ⟨⟨⟨hdot, hne⟩, _⟩, hds⟩ := hfrac
      exact Or.inr ⟨ds, by rw [hdot], hne, fun c hc => List.all_eq_true.mp hds c hc⟩

/-- Digits are not dots and not commas. -/
theorem digit_ne_dot_comma {c : Char} (h : isDigitChar c = true) :
    c ≠ '.' ∧ c ≠ ',' := by
  unfold isDigitChar at h
  simp only [Bool.and_eq_true, decide_eq_true_eq] at h
  constructor <;> intro he <;> subst he <;> revert h <;> decide

/-- A numeral-grammar token holding at least one digit parses successfully
after comma removal: the comma-stripped token is digits with at most one
dot and at least one digit, which the float model accepts. -/
theorem numTok_with_digit_parses {g2 : List Char} (hnum : isNumTok g2 = true)
    (hd : ∃ c ∈ g2, isDigitChar c = true) :
    ∃ q, pyFloat (removeCommas g2) = some q := by
  obtain ⟨core, frac, hsplit, _, hcore, hfrac⟩ := isNumTok_decomp hnum
  subst hsplit
  have hA : removeCommas (core ++ frac) =
      core.filter (fun c => decide (c ≠ ',')) ++ removeCommas frac := by
    unfold removeCommas
    rw [List.filter_append]
  have hAdig : ∀ c ∈ core.filter (fun c => decide (c ≠ ',')),
      isDigitChar c = true := by
    intro c hc
    rw [List.mem_filter, decide_eq_true_eq] at hc
    obtain ⟨hcm, hcne2⟩ := hc
    have hnc := hcore c hcm
    unfold numCore at hnc
    rcases Bool.or_eq_true_iff.mp hnc with h1 | h1
    · exact h1
    · rw [decide_eq_true_eq] at h1
      exact absurd h1 hcne2
  have hAnodot : ∀ a ∈ core.filter (fun c => decide (c ≠ ',')),
      (decide (a ≠ '.')) = true := by
    intro a ha
    rw [decide_eq_true_eq]
    exact (digit_ne_dot_comma (hAdig a ha)).1
  rcases hfrac with rfl | ⟨ds, rfl, hdsne, hds⟩
  · -- no fractional part: the comma-stripped token is pure digits
    obtain ⟨c, hcm, hcd⟩ := hd
    rw [List.append_nil] at hcm
    have hcmem : c ∈ core.filter (fun c => decide (c ≠ ',')) := by
      rw [List.mem_filter, decide_eq_true_eq]
      exact ⟨hcm, (digit_ne_dot_comma hcd).2⟩
    have hAne : core.filter (fun c => decide (c ≠ ',')) ≠ [] := by
      intro h0
      rw [h0] at hcmem
      cases hcmem
    refine ⟨digitsToNat (core.filter (fun c => decide (c ≠ ','))), ?_⟩
    unfold pyFloat
    rw [hA]
    have hfe : removeCommas [] = [] := rfl
    rw [hfe, List.append_nil]
    have ht : (core.filter (fun c => decide (c ≠ ','))).takeWhile
        (fun c => decide (c ≠ '.')) = core.filter (fun c => decide (c ≠ ',')) := by
      have := takeWhile_all_append (B := ([] : List Char)) hAnodot
      simpa using this
    have hdw : (core.filter (fun c => decide (c ≠ ','))).dropWhile
        (fun c => decide (c ≠ '.')) = [] := by
      have := dropWhile_all_append (B := ([] : List Char)) hAnodot
      simpa using this
    rw [hdw]
    dsimp only
    rw [ht]
    rw [if_pos (by
      simp only [Bool.and_eq_true, decide_eq_true_eq, List.all_eq_true]
      exact ⟨hAne, hAdig⟩)]
  · -- fractional part: digits, then a dot, then one or two digits
    have hfr : removeCommas ('.' :: ds) = '.' :: ds := by
      unfold removeCommas
      rw [List.filter_cons]
      simp only [decide_eq_true_eq]
      rw [if_pos (by decide)]
      congr 1
      rw [List.filter_eq_self]
      intro c hc
      rw [decide_eq_true_eq]
      exact (digit_ne_dot_comma (hds c hc)).2
    refine ⟨(digitsToNat (core.filter (fun c => decide (c ≠ ','))) : ℚ) +
      (digitsToNat ds : ℚ) / (10 ^ ds.length : ℚ), ?_⟩
    unfold pyFloat
    rw [hA, hfr]
    have ht := takeWhile_all_append (B := '.' :: ds) hAnodot
    have hdw := dropWhile_all_append (B := '.' :: ds) hAnodot
    rw [hdw]
    have hds0 : ('.' :: ds).dropWhile (fun c => decide (c ≠ '.')) = '.' :: ds := by
      rw [List.dropWhile_cons]
      simp
    rw [hds0]
    dsimp only
    rw [ht]
    have hts : ('.' :: ds).takeWhile (fun c => decide (c ≠ '.')) = [] := by
      rw [List.takeWhile_cons]
      simp
    rw [hts, List.append_nil]
    rw [if_pos (by
      simp only [Bool.and_eq_true, Bool.or_eq_true, decide_eq_true_eq,
        List.all_eq_true]
      exact ⟨⟨hAdig, fun c hc => hds c hc⟩, Or.inr hdsne⟩)]

/-- C1: the reconciliation rule of the spec is not what the pipeline does.
The line "Total: 1200" does match the total-line pattern (first
conjunct), and the extractor's override branch, had it run, would have
adopted 1200 for items summing to 1180 (the tolerance is 100); but the
pipeline removes every line containing the exclude word "total" before
any regex runs, so the final total stays 1180 and is not 1200. -/
theorem totalLine_reconciliation_not_applied :
    totalSearch (pyLower (pyStrip (str "Total: 1200"))) = some (str "1200") ∧
      (extract (str "Milk 500\nBread 680\nTotal: 1200")).total = 1180 ∧
      (extract (str "Milk 500\nBread 680\nTotal: 1200")).total ≠ 1200 := by
  refine ⟨by decide, by decide, by decide⟩

/-- C2: the total-override branch never executes. Every newline-free line
matched by the total regex is already matched by the item regex, so the
fallback branch guarded by the failed item match is never reached with a
successful total match; consequently, for every raw OCR text, the
returned total equals the accumulated sum of the returned item prices. -/
theorem overrideBranch_dead_total_eq_sum :
    (∀ l n : List Char, l.all (fun c => c ≠ '\n') = true →
        totalSearch (pyLower l) = some n → itemMatch l ≠ none) ∧
      ∀ raw : List Char, (extract raw).total = sumPrices (extract raw).items := by
  constructor
  · exact fun l n hnl hts => totalSearch_itemMatch hnl hts
  · intro raw
    exact (foldl_invariant (splitOnNewline (pyStrip raw)) state0
      (splitOnNewline_no_newline (pyStrip raw)) rfl
      (fun it hit => absurd hit (List.not_mem_nil it))).1

/-- Witness for C2 at concrete inputs: the total-pattern line
"balance 42" is consumed by the item pattern, and a concrete extraction
has total equal to the sum of its item prices. -/
theorem overrideBranch_dead_total_eq_sum_witness :
    itemMatch (str "balance 42") ≠ none ∧
      (extract (str "Milk 45")).total = sumPrices (extract (str "Milk 45")).items :=
  ⟨overrideBranch_dead_total_eq_sum.1 (str "balance 42") (str "42")
    (by decide) (by decide),
   overrideBranch_dead_total_eq_sum.2 (str "Milk 45")⟩

/-- C3 counterexample: the line "sum 200000" matches the item pattern
with out-of-range price 200000 and also matches the total pattern; the
claimed fall-through to the total attempt would, at the empty state
(running total 0, value positive), adopt 200000 as the total, but
processing the line leaves the state unchanged: no total attempt is
made when the item pattern matched. -/
theorem outOfRange_item_no_total_fallthrough_cex :
    itemMatch (str "sum 200000") = some (str "sum", str "200000") ∧
      pyFloat (removeCommas (str "200000")) = some 200000 ∧
      ¬(1 / 100 ≤ (200000 : ℚ) ∧ (200000 : ℚ) ≤ 100000) ∧
      totalSearch (pyLower (str "sum 200000")) = some (str "200000") ∧
      processLine state0 (str "sum 200000") = state0 := by
  refine ⟨by decide, by decide, by decide, by decide, by decide⟩

/-- C3 amended: when the item pattern matches but the captured price
token fails to parse or parses outside [0.01, 100000], the line parser
records no item and discards the line without attempting the total-line
pattern: the total attempt runs only when the item pattern fails to
match. -/
theorem invalidPrice_line_discarded (st : ExtractState) (l g1 g2 : List Char)
    (him : itemMatch (pyStrip l) = some (g1, g2))
    (hbad : ∀ q : ℚ, pyFloat (removeCommas g2) = some q →
      ¬(1 / 100 ≤ q ∧ q ≤ 100000)) :
    processLine st l = st := by
  by_cases hex : (decide (pyStrip l = []) ||
      containsExcludeWord (pyLower (pyStrip l))) = true
  · simp only [processLine]
    rw [if_pos hex]
  · simp only [processLine]
    rw [if_neg hex, him]
    dsimp only
    cases hf : pyFloat (removeCommas g2) with
    | none => rfl
    | some q =>
      dsimp only
      rw [if_neg (hbad q hf)]

/-- Witness for C3's amended claim at the concrete line "sum 200000". -/
theorem invalidPrice_line_discarded_witness :
    itemMatch (pyStrip (str "sum 200000")) = some (str "sum", str "200000") ∧
      processLine state0 (str "sum 200000") = state0 :=
  ⟨by decide,
   invalidPrice_line_discarded state0 (str "sum 200000") (str "sum")
     (str "200000") (by decide)
     (fun q hq => by
       have h2 : pyFloat (removeCommas (str "200000")) = some 200000 := by decide
       rw [h2] at hq
       injection hq with hq2
       rw [← hq2]
       decide)⟩

/-- C4: a line whose lowercased stripped text contains any word of the
exclude stoplist is skipped entirely: no item is produced and the state
is unchanged, even when the line ends in a number. -/
theorem stoplist_line_noise (st : ExtractState) (l : List Char)
    (h : containsExcludeWord (pyLower (pyStrip l)) = true) :
    processLine st l = st := by
  simp [processLine, h]

/-- Witness for C4 at the concrete line "Tax 100". -/
theorem stoplist_line_noise_witness :
    containsExcludeWord (pyLower (pyStrip (str "Tax 100"))) = true ∧
      processLine state0 (str "Tax 100") = state0 :=
  ⟨by decide, stoplist_line_noise state0 (str "Tax 100") (by decide)⟩

/-- C5: every item of every produced result has its price inside
[0.01, 100000]: out-of-range trailing numerals are never recorded. -/
theorem extracted_prices_in_range (raw : List Char) (it : Item)
    (hit : it ∈ (extract raw).items) :
    1 / 100 ≤ it.price ∧ it.price ≤ 100000 :=
  (foldl_invariant (splitOnNewline (pyStrip raw)) state0
    (splitOnNewline_no_newline (pyStrip raw)) rfl
    (fun x hx => absurd hx (List.not_mem_nil x))).2 it hit

/-- Witness for C5 at a concrete extraction. -/
theorem extracted_prices_in_range_witness :
    (⟨str "Milk", 45⟩ : Item) ∈ (extract (str "Milk 45")).items ∧
      (1 / 100 ≤ (45 : ℚ) ∧ (45 : ℚ) ≤ 100000) :=
  ⟨by decide,
   extracted_prices_in_range (str "Milk 45") ⟨str "Milk", 45⟩ (by decide)⟩

/-- C6: `categorize` is a total deterministic function into the closed
nine-element category type, and it equals the spec's priority-ordered
table: the keyword lists are tried in the fixed order Essentials,
Snacks, Clothing, Electronics, Health, Dining Out, Transport, Utilities
on the lowercased name, the first match wins, and Other is returned when
nothing matches. -/
theorem categorize_priority_refinement :
    ∀ name : List Char, categorize name = specCategorize name := fun _ => rfl

/-- C7: the savings tip of every extraction equals the first matching
rule of the spec's strict priority-ordered rule list evaluated against
the final items, category breakdown and total, with the balanced tip as
final default. -/
theorem savings_tip_priority_refinement (raw : List Char) :
    (extract raw).savingsTip =
      specTip (extract raw).items (extract raw).categoryBreakdown
        (extract raw).total :=
  computeTip_eq_specTip _ _ _

/-- C8: extraction never fails: it is a total function producing a
`ReceiptResult` for every raw text, a zero total always yields the
no-data tip, and the degenerate noise-only input produces exactly the
empty result with total 0 and the no-data tip. -/
theorem extract_degrades_to_empty :
    (∀ raw : List Char, (extract raw).total = 0 →
        (extract raw).savingsTip = Tip.noData) ∧
      extract (str "GST No: 12345\nThank you") =
        { items := [], total := 0, categoryBreakdown := []
          savingsTip := Tip.noData } := by
  constructor
  · intro raw h
    have h2 : (List.foldl processLine state0
        (splitOnNewline (pyStrip raw))).total = 0 := h
    show computeTip _ _ _ = Tip.noData
    unfold computeTip
    rw [if_pos h2]
  · decide

/-- Witness for C8's zero-total rule at a concrete input. -/
theorem extract_degrades_to_empty_witness :
    (extract (str "no digits here")).savingsTip = Tip.noData :=
  extract_degrades_to_empty.1 (str "no digits here") (by decide)

/-- C9: extraction is deterministic: identical raw texts produce
identical items, totals and category breakdowns. -/
theorem extract_idempotent (t1 t2 : List Char) (h : t1 = t2) :
    (extract t1).items = (extract t2).items ∧
      (extract t1).total = (extract t2).total ∧
      (extract t1).categoryBreakdown = (extract t2).categoryBreakdown := by
  subst h
  exact ⟨rfl, rfl, rfl⟩

/-- Witness for C9 at a concrete input. -/
theorem extract_idempotent_witness :
    (extract (str "Lays Chips 30")).items = (extract (str "Lays Chips 30")).items ∧
      (extract (str "Lays Chips 30")).total = (extract (str "Lays Chips 30")).total ∧
      (extract (str "Lays Chips 30")).categoryBreakdown =
        (extract (str "Lays Chips 30")).categoryBreakdown :=
  extract_idempotent (str "Lays Chips 30") (str "Lays Chips 30") rfl

/-- C10 counterexample: the item regex matches the line "abc ," and
captures the price token ",", whose comma removal leaves the empty
string; the float conversion fails, so the malformed-numeral handler is
reachable on the item path. -/
theorem commaToken_parse_failure_cex :
    itemMatch (str "abc ,") = some (str "abc", str ",") ∧
      pyFloat (removeCommas (str ",")) = none := by
  refine ⟨by decide, by decide⟩

/-- C10 amended: for every line matched by the item pattern whose
captured price token contains at least one digit, the comma-stripped
token parses successfully; the failure handler is reachable only for
tokens consisting entirely of commas. -/
theorem digit_token_always_parses (line g1 g2 : List Char)
    (him : itemMatch line = some (g1, g2))
    (hdig : ∃ c ∈ g2, isDigitChar c = true) :
    ∃ q, pyFloat (removeCommas g2) = some q :=
  numTok_with_digit_parses (itemMatch_num him).1 hdig

/-- Witness for C10's amended claim at the concrete line "Milk 45". -/
theorem digit_token_always_parses_witness :
    itemMatch (str "Milk 45") = some (str "Milk", str "45") ∧
      ∃ q, pyFloat (removeCommas (str "45")) = some q :=
  ⟨by decide,
   digit_token_always_parses (str "Milk 45") (str "Milk") (str "45")
     (by decide) (by decide)⟩

end SnapBudget
